import Mathlib

/-!
Verification development for the target-derivation pipeline of
ml/targets/create-targets.py (with the merge semantics it requests from
pandas, and the target columns consumed by ml/models/train-markets.py).

Modelling conventions:
  dates are naturals (pandas Timestamps are totally ordered and only
  compared), goals are integers, percentages and averages are exact
  rationals, strings are Lean strings, and raw name text is a list of
  characters so that the character-level normalisation can be stated.
-/

/-- Embedding of the H2HMatch dataclass of create-targets.py. -/
structure H2HMatch where
  date : Nat
  home_team : String
  away_team : String
  home_goals : Int
  away_goals : Int
  deriving DecidableEq, Inhabited, Repr

/-- Embedding of the dict returned by compute_h2h_stats: the H2HSnapshot of
the spec.  Percentage and average fields are None (here Option.none) when no
match is selected. -/
structure H2HSnapshot where
  «matches» : Nat
  home_win_pct : Option ℚ
  away_win_pct : Option ℚ
  draw_pct : Option ℚ
  avg_goals : Option ℚ
  btts_pct : Option ℚ
  over_2_5_pct : Option ℚ
  deriving DecidableEq, Repr

/-- The snapshot returned by every early-return branch of compute_h2h_stats. -/
def emptySnapshot : H2HSnapshot :=
  { «matches» := 0
    home_win_pct := none
    away_win_pct := none
    draw_pct := none
    avg_goals := none
    btts_pct := none
    over_2_5_pct := none }

/-- Fuelled body of Python's bisect.bisect_left binary search: returns the
first index in a[lo:hi] whose entry is not less than x, by the standard
halving loop.  The fuel argument only bounds the number of loop iterations;
it is instantiated with the list length, which always suffices since hi - lo
shrinks at every step. -/
def bisectLeftAux (a : List Nat) (x : Nat) : Nat → Nat → Nat → Nat
  | 0, lo, _hi => lo
  | fuel + 1, lo, hi =>
    if lo < hi then
      if a.getD ((lo + hi) / 2) 0 < x then
        bisectLeftAux a x fuel ((lo + hi) / 2 + 1) hi
      else
        bisectLeftAux a x fuel lo ((lo + hi) / 2)
    else lo

/-- Embedding of bisect.bisect_left(a, x) over the whole list. -/
def bisect_left (a : List Nat) (x : Nat) : Nat :=
  bisectLeftAux a x a.length 0 a.length

/-- Embedding of Python's tail slice l[-k:] (as used in
matches[:cutoff][-max_matches:]): for k = 0 the slice l[-0:] = l[0:] is the
whole list, otherwise it is the last k elements. -/
def pyTail (l : List α) (k : Nat) : List α :=
  if k = 0 then l else l.drop (l.length - k)

/-- Embedding of the venue_only selection loop of compute_h2h_stats:
`for idx in range(cutoff - 1, -1, -1)` walking indices cutoff-1, ..., 0,
appending every match whose direction equals the current fixture's, and
breaking once max_matches have been collected (the length test happens after
the append, so with max_matches = 0 the loop still keeps one match). -/
def venueSelect (hist : List H2HMatch) (current_home current_away : String)
    (max_matches : Nat) : Nat → List H2HMatch → List H2HMatch
  | 0, selected => selected
  | idx + 1, selected =>
    let m := hist.getD idx default
    if m.home_team = current_home ∧ m.away_team = current_away then
      if max_matches ≤ selected.length + 1 then selected ++ [m]
      else venueSelect hist current_home current_away max_matches idx
        (selected ++ [m])
    else venueSelect hist current_home current_away max_matches idx selected

/-- The per-pair date sequence compute_h2h_stats builds:
dates = [m.date for m in matches]. -/
def h2hDates (hist : List H2HMatch) : List Nat :=
  hist.map H2HMatch.date

/-- The cutoff = bisect_left(dates, current_date) of compute_h2h_stats. -/
def h2hCutoff (hist : List H2HMatch) (current_date : Nat) : Nat :=
  bisect_left (h2hDates hist) current_date

/-- The selection step of compute_h2h_stats for both variants.  In the
source the three early returns (matches empty, cutoff <= 0, selected empty)
all return the same all-None dict, and an empty match list forces cutoff = 0,
so the selection can be expressed as a single function: it returns [] exactly
when compute_h2h_stats takes an early return. -/
def h2hSelected (hist : List H2HMatch) (current_home current_away : String)
    (current_date : Nat) (max_matches : Nat) (venue_only : Bool) :
    List H2HMatch :=
  let cutoff := h2hCutoff hist current_date
  if cutoff = 0 then []
  else if venue_only then
    (venueSelect hist current_home current_away max_matches cutoff []).reverse
  else pyTail (hist.take cutoff) max_matches

/-- Accumulator of the statistics loop of compute_h2h_stats. -/
structure H2HAcc where
  home_wins : Nat
  away_wins : Nat
  draws : Nat
  total_goals : Int
  btts : Nat
  over_2_5 : Nat
  deriving DecidableEq, Repr

/-- One iteration of the statistics loop of compute_h2h_stats: reorient the
historical goals to the current fixture's frame (swap when the historical
home team differs from the current home team), then bucket the outcome and
update the goal, both-teams-scored and over-2.5 tallies (total > 2.5 compares
the integer goal total against the float literal 2.5, modelled exactly as the
rational 5/2). -/
def h2hStep (current_home : String) (acc : H2HAcc) (m : H2HMatch) : H2HAcc :=
  let home_goals := if m.home_team = current_home then m.home_goals else m.away_goals
  let away_goals := if m.home_team = current_home then m.away_goals else m.home_goals
  let acc1 :=
    if home_goals > away_goals then { acc with home_wins := acc.home_wins + 1 }
    else if away_goals > home_goals then { acc with away_wins := acc.away_wins + 1 }
    else { acc with draws := acc.draws + 1 }
  let total := home_goals + away_goals
  let acc2 := { acc1 with total_goals := acc1.total_goals + total }
  let acc3 :=
    if 0 < home_goals ∧ 0 < away_goals then { acc2 with btts := acc2.btts + 1 }
    else acc2
  if (5 : ℚ) / 2 < (total : ℚ) then { acc3 with over_2_5 := acc3.over_2_5 + 1 }
  else acc3

/-- The zero-initialised accumulator of compute_h2h_stats. -/
def h2hAccInit : H2HAcc :=
  { home_wins := 0, away_wins := 0, draws := 0, total_goals := 0, btts := 0
    over_2_5 := 0 }

/-- Embedding of compute_h2h_stats of create-targets.py.  The three source
early returns are reached exactly when h2hSelected returns [], and all yield
the all-None, zero-count snapshot. -/
def compute_h2h_stats (hist : List H2HMatch)
    (current_home current_away : String) (current_date : Nat)
    (max_matches : Nat) (venue_only : Bool) : H2HSnapshot :=
  let selected :=
    h2hSelected hist current_home current_away current_date max_matches
      venue_only
  if selected.isEmpty then emptySnapshot
  else
    let acc := selected.foldl (h2hStep current_home) h2hAccInit
    let count := selected.length
    { «matches» := count
      home_win_pct := some ((acc.home_wins : ℚ) / (count : ℚ) * 100)
      away_win_pct := some ((acc.away_wins : ℚ) / (count : ℚ) * 100)
      draw_pct := some ((acc.draws : ℚ) / (count : ℚ) * 100)
      avg_goals := some ((acc.total_goals : ℚ) / (count : ℚ))
      btts_pct := some ((acc.btts : ℚ) / (count : ℚ) * 100)
      over_2_5_pct := some ((acc.over_2_5 : ℚ) / (count : ℚ) * 100) }

/-- Worked scenario history of spec section 8: the pair (TeamA, TeamB) met on
2021-01-01 (TeamA home, 2-1) and on 2021-06-01 (TeamB home, 0-0). -/
def scenarioMatches : List H2HMatch :=
  [ { date := 20210101, home_team := "TeamA", away_team := "TeamB"
      home_goals := 2, away_goals := 1 }
  , { date := 20210601, home_team := "TeamB", away_team := "TeamA"
      home_goals := 0, away_goals := 0 } ]

/-- Composite key (date, leagueId, homeTeam, awayTeam) of the merge in
main() of create-targets.py. -/
structure MergeKey where
  date : String
  leagueId : Nat
  homeTeam : String
  awayTeam : String
  deriving DecidableEq, Repr

/-- A feature-table row: its merge key plus the pre-match payload, which the
merge carries along without inspecting (abstracted to an identifier). -/
structure FeatureRow where
  key : MergeKey
  payload : Nat
  deriving DecidableEq, Repr

/-- A raw outcome row on the right side of the merge, likewise abstracted to
its merge key plus a payload identifier. -/
structure OutcomeRow where
  key : MergeKey
  payload : Nat
  deriving DecidableEq, Repr

/-- Whether a key list contains two equal keys (the integrity condition
checked by pandas validate="many_to_one" on the right side). -/
def hasDupKeys : List MergeKey → Bool
  | [] => false
  | k :: ks => ks.contains k || hasDupKeys ks

/-- The rows one feature row contributes to a left outer join: one row per
matching outcome row, or a single row with a null outcome part when no
outcome row matches. -/
def joinRow (f : FeatureRow) (outcomes : List OutcomeRow) :
    List (FeatureRow × Option OutcomeRow) :=
  match outcomes.filter (fun o => o.key == f.key) with
  | [] => [(f, none)]
  | ms => ms.map (fun o => (f, some o))

/-- Plain left outer join on the composite key, keeping feature-row order. -/
def leftJoinRows : List FeatureRow → List OutcomeRow → List (FeatureRow × Option OutcomeRow)
  | [], _ => []
  | f :: fs, outcomes => joinRow f outcomes ++ leftJoinRows fs outcomes

/-- Model of the call features.merge(raw, on=[date, leagueId, homeTeam,
awayTeam], how="left", validate="many_to_one") in main() of
create-targets.py: pandas performs the left outer join but, under
validate="many_to_one", raises pandas.errors.MergeError instead of returning
a frame whenever the right side holds duplicate composite keys. -/
def mergeManyToOne (features : List FeatureRow) (outcomes : List OutcomeRow) :
    Except String (List (FeatureRow × Option OutcomeRow)) :=
  if hasDupKeys (outcomes.map OutcomeRow.key) then
    Except.error "MergeError: merge keys are not unique in right dataset; not a many-to-one merge"
  else
    Except.ok (leftJoinRows features outcomes)

/-- The ASCII and Latin-1 lowercase mapping of Python str.lower restricted
to the character repertoire this pipeline distinguishes: the 26 ASCII
capitals plus the uppercase forms of every accented letter appearing in
REPLACEMENTS of create-targets.py.  All other characters are fixed. -/
def lowerPairs : List (Char × Char) :=
  [ ('A', 'a'), ('B', 'b'), ('C', 'c'), ('D', 'd'), ('E', 'e'), ('F', 'f')
  , ('G', 'g'), ('H', 'h'), ('I', 'i'), ('J', 'j'), ('K', 'k'), ('L', 'l')
  , ('M', 'm'), ('N', 'n'), ('O', 'o'), ('P', 'p'), ('Q', 'q'), ('R', 'r')
  , ('S', 's'), ('T', 't'), ('U', 'u'), ('V', 'v'), ('W', 'w'), ('X', 'x')
  , ('Y', 'y'), ('Z', 'z')
  , ('Á', 'á'), ('À', 'à'), ('Â', 'â'), ('Ã', 'ã'), ('Ä', 'ä')
  , ('É', 'é'), ('È', 'è'), ('Ê', 'ê'), ('Ë', 'ë')
  , ('Í', 'í'), ('Ì', 'ì'), ('Î', 'î'), ('Ï', 'ï')
  , ('Ó', 'ó'), ('Ò', 'ò'), ('Ô', 'ô'), ('Õ', 'õ'), ('Ö', 'ö')
  , ('Ú', 'ú'), ('Ù', 'ù'), ('Û', 'û'), ('Ü', 'ü')
  , ('Ç', 'ç'), ('Ñ', 'ñ') ]

/-- Character-level model of Python str.lower over the repertoire above. -/
def pyLower (c : Char) : Char :=
  ((lowerPairs.lookup c).getD c)

/-- Model of Python str.isspace / str.split whitespace for the characters in
play: the six ASCII whitespace characters. -/
def pyIsSpace (c : Char) : Bool :=
  [' ', '\t', '\n', '\x0b', '\x0c', '\r'].contains c

/-- Embedding of the REPLACEMENTS accent-folding table of create-targets.py,
in source order. -/
def REPLACEMENTS : List (Char × Char) :=
  [ ('á', 'a'), ('à', 'a'), ('â', 'a'), ('ã', 'a'), ('ä', 'a')
  , ('é', 'e'), ('è', 'e'), ('ê', 'e'), ('ë', 'e')
  , ('í', 'i'), ('ì', 'i'), ('î', 'i'), ('ï', 'i')
  , ('ó', 'o'), ('ò', 'o'), ('ô', 'o'), ('õ', 'o'), ('ö', 'o')
  , ('ú', 'u'), ('ù', 'u'), ('û', 'u'), ('ü', 'u')
  , ('ç', 'c'), ('ñ', 'n') ]

/-- Character-level model of Python str.isalnum over the repertoire in play:
ASCII letters and digits together with the accented letters of the tables
above (in either case). -/
def pyIsAlnum (c : Char) : Bool :=
  decide ('a' ≤ c ∧ c ≤ 'z') || decide ('A' ≤ c ∧ c ≤ 'Z') ||
    decide ('0' ≤ c ∧ c ≤ '9') ||
    lowerPairs.any (fun p => p.1 == c || p.2 == c)

/-- What the REPLACEMENTS loop of normalize_team_name does to one character:
each table entry replaces one single character, so the sequence of
str.replace calls acts independently on every character of the string. -/
def replChar (c : Char) : Char :=
  REPLACEMENTS.foldl (fun x p => if x = p.1 then p.2 else x) c

/-- The loop `for src, dst in REPLACEMENTS.items(): value =
value.replace(src, dst)` of normalize_team_name: one whole-string
substitution per table entry, applied in table order. -/
def applyReplacements (value : List Char) : List Char :=
  REPLACEMENTS.foldl (fun v p => v.map (fun ch => if ch = p.1 then p.2 else ch)) value

/-- Python str.strip(): drop leading and trailing whitespace. -/
def pyStrip (s : List Char) : List Char :=
  ((s.dropWhile pyIsSpace).reverse.dropWhile pyIsSpace).reverse

/-- Worker of Python str.split() with no separator: accumulate the current
chunk (reversed) and emit it at each whitespace character.  Empty chunks
produced by adjacent separators are discarded by pySplit. -/
def splitAux : List Char → List Char → List (List Char)
  | [], acc => [acc.reverse]
  | c :: cs, acc =>
    if pyIsSpace c then acc.reverse :: splitAux cs []
    else splitAux cs (c :: acc)

/-- Python str.split() with no separator: whitespace runs separate the
words, and no empty word is returned. -/
def pySplit (s : List Char) : List (List Char) :=
  (splitAux s []).filter (fun w => !w.isEmpty)

/-- Embedding of the STOP_WORDS set of create-targets.py. -/
def STOP_WORDS : List (List Char) :=
  [ "fc", "cf", "sc", "afc", "ac", "ss", "cd", "ud", "de", "al", "the"
  ].map String.toList

/-- Python " ".join(parts): words joined by single spaces. -/
def joinSp : List (List Char) → List Char
  | [] => []
  | [w] => w
  | w :: w2 :: ws => w ++ ' ' :: joinSp (w2 :: ws)

/-- Embedding of normalize_team_name of create-targets.py: strip and
lowercase, fold accents through REPLACEMENTS, blank every character that is
neither alphanumeric nor whitespace, split into words, drop stop words, and
rejoin with single spaces (the trailing .strip() of the source included). -/
def normalize_team_name (raw : List Char) : List Char :=
  let value1 := (pyStrip raw).map pyLower
  let value2 := applyReplacements value1
  let value3 := value2.map (fun ch => if pyIsAlnum ch || pyIsSpace ch then ch else ' ')
  let parts := (pySplit value3).filter
    (fun part => !part.isEmpty && !STOP_WORDS.contains part)
  pyStrip (joinSp parts)

/-- The cleaned character stage of normalize_team_name (the value after the
alnum-or-space masking), exposed so the output shape can be stated. -/
def normalizeValue3 (raw : List Char) : List Char :=
  (applyReplacements ((pyStrip raw).map pyLower)).map
    (fun ch => if pyIsAlnum ch || pyIsSpace ch then ch else ' ')

/-- The word list normalize_team_name joins into its output. -/
def normalizeParts (raw : List Char) : List (List Char) :=
  (pySplit (normalizeValue3 raw)).filter
    (fun part => !part.isEmpty && !STOP_WORDS.contains part)

/-- Folding one character by case then accents: two name characters are
"the same up to letter case and accent marks" exactly when they agree under
this fold. -/
def caseAccentFold (c : Char) : Char :=
  replChar (pyLower c)

/-- Embedding of the LEAGUE_NAME_MAP table of create-targets.py. -/
def LEAGUE_NAME_MAP : List (String × Nat) :=
  [ ("premier league", 39), ("english premier league", 39), ("epl", 39)
  , ("e0", 39)
  , ("la liga", 140), ("spanish la liga", 140), ("primera division", 140)
  , ("primera división", 140), ("sp1", 140)
  , ("serie a", 135), ("italian serie a", 135), ("i1", 135)
  , ("bundesliga", 78), ("german bundesliga", 78), ("d1", 78)
  , ("ligue 1", 61), ("french ligue 1", 61), ("f1", 61)
  , ("primeira liga", 94), ("liga portugal", 94), ("portuguese league", 94)
  , ("p1", 94)
  , ("eredivisie", 88), ("dutch eredivisie", 88), ("n1", 88) ]

/-- Embedding of resolve_league_id of create-targets.py: strip and lowercase
the raw label, then look it up in the static alias table; None when the
label is unknown. -/
def resolve_league_id (raw : String) : Option Nat :=
  LEAGUE_NAME_MAP.lookup (String.mk ((pyStrip raw.toList).map pyLower))

/-- A raw historical row as far as league resolution and the operator report
read it: the Division label plus the optional numeric columns behind the
coverage counts (absent values model NaN). -/
structure RawRow where
  Division : String
  HTHome : Option Int
  HTAway : Option Int
  HomeYellow : Option Int
  AwayYellow : Option Int
  HomeRed : Option Int
  AwayRed : Option Int
  HomeCorners : Option Int
  AwayCorners : Option Int
  deriving DecidableEq, Repr

/-- The filter raw = raw[raw["leagueId"].notna()] of main(), applied right
after leagueId = Division.apply(resolve_league_id) and before the pair map
and the merge are built: rows whose league label does not resolve are
dropped. -/
def dropUnresolvedLeague (rows : List RawRow) : List RawRow :=
  rows.filter (fun r => (resolve_league_id r.Division).isSome)

/-- The number of raw rows excluded by the unresolved-league filter. -/
def excludedLeagueCount (rows : List RawRow) : Nat :=
  (rows.filter (fun r => (resolve_league_id r.Division).isNone)).length

/-- NaN-propagating addition of two optional columns, as pandas + behaves on
nullable numeric columns. -/
def optAdd : Option Int → Option Int → Option Int
  | some a, some b => some (a + b)
  | _, _ => none

/-- The slice of a merged output row that the operator report reads:
fh_goals_total, total_cards and total_corners. -/
structure MergedRow where
  fh_goals_total : Option Int
  total_cards : Option Int
  total_corners : Option Int
  deriving DecidableEq, Repr

/-- How main() fills the three reported columns of a merged row from the raw
columns carried through the merge: fh_goals_total = HTHome + HTAway,
total_cards = (HomeYellow + HomeRed) + (AwayYellow + AwayRed),
total_corners = HomeCorners + AwayCorners, each NaN-propagating. -/
def mkMergedRow (HTHome HTAway HomeYellow AwayYellow HomeRed AwayRed
    HomeCorners AwayCorners : Option Int) : MergedRow :=
  { fh_goals_total := optAdd HTHome HTAway
    total_cards := optAdd (optAdd HomeYellow HomeRed) (optAdd AwayYellow AwayRed)
    total_corners := optAdd HomeCorners AwayCorners }

/-- The coverage report main() prints to the operator: the three non-null
coverage counts, and nothing else. -/
def coverageReport (merged : List MergedRow) : List (String × Nat) :=
  [ ("fh_goals_total", (merged.filter (fun r => r.fh_goals_total.isSome)).length)
  , ("total_cards", (merged.filter (fun r => r.total_cards.isSome)).length)
  , ("total_corners", (merged.filter (fun r => r.total_corners.isSome)).length) ]

/-- Modelled from the spec: derivation of the result target column.  The
code deriving result is not under src: create-targets.py reads homeGoals and
awayGoals (and with them result) from the upstream feature table, whose
builder is elsewhere in the repository, and the 1x2 market of
train-markets.py consumes the result column from the pipeline output.  Spec
section 4.5: result is HOME, DRAW or AWAY from the final goals comparison;
like every target derived from nullable fields, a missing goal leaves the
target null.  The shape mirrors half_result of create-targets.py, the
in-src analogue deriving fh_result from half-time goals. -/
def deriveResult : Option Int → Option Int → Option String
  | some homeGoals, some awayGoals =>
    if homeGoals > awayGoals then some "HOME"
    else if homeGoals < awayGoals then some "AWAY"
    else some "DRAW"
  | _, _ => none

/-! Basic facts about the selection machinery of compute_h2h_stats. -/

lemma bisectLeftAux_le (a : List Nat) (x : Nat) :
    ∀ (fuel lo hi : Nat), lo ≤ hi → bisectLeftAux a x fuel lo hi ≤ hi := by
  intro fuel
  induction fuel with
  | zero => intro lo hi h; simpa [bisectLeftAux] using h
  | succ fuel ih =>
    intro lo hi h
    simp only [bisectLeftAux]
    by_cases hlt : lo < hi
    · rw [if_pos hlt]
      by_cases hm : a.getD ((lo + hi) / 2) 0 < x
      · rw [if_pos hm]
        exact ih _ _ (by omega)
      · rw [if_neg hm]
        exact le_trans (ih _ _ (by omega)) (by omega)
    · rw [if_neg hlt]; exact h

lemma bisectLeftAux_lt (a : List Nat) (x : Nat)
    (hmono : ∀ i j, i ≤ j → j < a.length → a.getD i 0 ≤ a.getD j 0) :
    ∀ (fuel lo hi : Nat), hi ≤ a.length → hi - lo ≤ fuel →
      (∀ i, i < lo → a.getD i 0 < x) →
      ∀ i, i < bisectLeftAux a x fuel lo hi → a.getD i 0 < x := by
  intro fuel
  induction fuel with
  | zero =>
    intro lo hi _ _ hpre
    simpa [bisectLeftAux] using hpre
  | succ fuel ih =>
    intro lo hi hlen hf hpre
    simp only [bisectLeftAux]
    by_cases hlt : lo < hi
    · rw [if_pos hlt]
      by_cases hm : a.getD ((lo + hi) / 2) 0 < x
      · rw [if_pos hm]
        refine ih _ _ hlen (by omega) ?_
        intro i hi2
        by_cases hio : i < lo
        · exact hpre i hio
        · exact lt_of_le_of_lt (hmono i ((lo + hi) / 2) (by omega) (by omega)) hm
      · rw [if_neg hm]
        exact ih _ _ (by omega) (by omega) hpre
    · rw [if_neg hlt]; exact hpre

lemma sorted_getD_mono (a : List Nat) (hs : a.Sorted (· ≤ ·)) :
    ∀ i j, i ≤ j → j < a.length → a.getD i 0 ≤ a.getD j 0 := by
  intro i j hij hj
  rcases Nat.eq_or_lt_of_le hij with rfl | hlt
  · exact le_refl _
  · have hi : i < a.length := lt_trans hlt hj
    rw [List.getD_eq_get a 0 hi, List.getD_eq_get a 0 hj]
    exact hs.rel_get_of_lt hlt

lemma bisect_left_le (a : List Nat) (x : Nat) : bisect_left a x ≤ a.length :=
  bisectLeftAux_le a x a.length 0 a.length (Nat.zero_le _)

lemma bisect_left_lt (a : List Nat) (x : Nat) (hs : a.Sorted (· ≤ ·)) :
    ∀ i, i < bisect_left a x → a.getD i 0 < x := by
  refine bisectLeftAux_lt a x (sorted_getD_mono a hs) a.length 0 a.length
    (le_refl _) (by omega) ?_
  intro i hi
  omega

lemma h2hCutoff_le (hist : List H2HMatch) (d : Nat) :
    h2hCutoff hist d ≤ hist.length := by
  have h := bisect_left_le (h2hDates hist) d
  simpa [h2hDates] using h

lemma pyTail_subset (l : List α) (k : Nat) : ∀ x ∈ pyTail l k, x ∈ l := by
  intro x hx
  unfold pyTail at hx
  by_cases hk : k = 0
  · rwa [if_pos hk] at hx
  · rw [if_neg hk] at hx
    exact List.mem_of_mem_drop hx

lemma mem_take_getElem (l : List α) :
    ∀ (n : Nat) (x : α), x ∈ l.take n →
      ∃ i, i < n ∧ ∃ h : i < l.length, l.get ⟨i, h⟩ = x := by
  induction l with
  | nil => intro n x hx; simp at hx
  | cons a t ih =>
    intro n x hx
    cases n with
    | zero => simp at hx
    | succ n =>
      rw [List.take_succ_cons] at hx
      rcases List.mem_cons.mp hx with rfl | hx2
      · exact ⟨0, Nat.succ_pos _, by simp, rfl⟩
      · rcases ih n x hx2 with ⟨i, hin, hlen, hget⟩
        refine ⟨i + 1, by omega, by simpa using Nat.succ_lt_succ hlen, ?_⟩
        simpa using hget

lemma venueSelect_mem (hist : List H2HMatch) (ch ca : String) (maxM : Nat) :
    ∀ (idx : Nat) (sel : List H2HMatch), idx ≤ hist.length →
      ∀ m ∈ venueSelect hist ch ca maxM idx sel,
        m ∈ sel ∨ ∃ i, i < idx ∧ ∃ h : i < hist.length, hist.get ⟨i, h⟩ = m := by
  intro idx
  induction idx with
  | zero =>
    intro sel _ m hm
    simp only [venueSelect] at hm
    exact Or.inl hm
  | succ idx ih =>
    intro sel hlen m hm
    simp only [venueSelect] at hm
    have hidx : idx < hist.length := by omega
    have hget : hist.getD idx default = hist.get ⟨idx, hidx⟩ :=
      List.getD_eq_get hist default hidx
    by_cases hdir : (hist.getD idx default).home_team = ch ∧
        (hist.getD idx default).away_team = ca
    · rw [if_pos hdir] at hm
      by_cases hcap : maxM ≤ sel.length + 1
      · rw [if_pos hcap] at hm
        rcases List.mem_append.mp hm with h1 | h2
        · exact Or.inl h1
        · rcases List.mem_singleton.mp h2 with rfl
          exact Or.inr ⟨idx, by omega, hidx, hget.symm⟩
      · rw [if_neg hcap] at hm
        rcases ih (sel ++ [hist.getD idx default]) (by omega) m hm with h1 | h2
        · rcases List.mem_append.mp h1 with h3 | h4
          · exact Or.inl h3
          · rcases List.mem_singleton.mp h4 with rfl
            exact Or.inr ⟨idx, by omega, hidx, hget.symm⟩
        · rcases h2 with ⟨i, hi, hl, hg⟩
          exact Or.inr ⟨i, by omega, hl, hg⟩
    · rw [if_neg hdir] at hm
      rcases ih sel (by omega) m hm with h1 | h2
      · exact Or.inl h1
      · rcases h2 with ⟨i, hi, hl, hg⟩
        exact Or.inr ⟨i, by omega, hl, hg⟩

lemma h2hSelected_nil (ch ca : String) (d maxM : Nat) (v : Bool) :
    h2hSelected [] ch ca d maxM v = [] := rfl

lemma h2hSelected_of_cutoff_zero (hist : List H2HMatch) (ch ca : String)
    (d maxM : Nat) (v : Bool) (h : h2hCutoff hist d = 0) :
    h2hSelected hist ch ca d maxM v = [] := by
  unfold h2hSelected
  rw [h]
  simp

lemma compute_matches_eq_length (hist : List H2HMatch) (ch ca : String)
    (d maxM : Nat) (v : Bool) :
    (compute_h2h_stats hist ch ca d maxM v).«matches» =
      (h2hSelected hist ch ca d maxM v).length := by
  unfold compute_h2h_stats
  by_cases h : (h2hSelected hist ch ca d maxM v).isEmpty
  · rw [if_pos h]
    rw [List.isEmpty_iff] at h
    rw [h]
    rfl
  · rw [if_neg h]

/-- C9.  Empty-history contract: whenever compute_h2h_stats selects no match
(empty pair history, a cutoff of zero because no strictly-prior match
exists, or no venue-direction match in the venue variant), it returns the
snapshot with matches = 0 and every percentage and average field None. -/
theorem h2h_empty_contract (hist : List H2HMatch) (ch ca : String)
    (d maxM : Nat) (v : Bool)
    (h : hist = [] ∨ h2hCutoff hist d = 0 ∨
      h2hSelected hist ch ca d maxM v = []) :
    compute_h2h_stats hist ch ca d maxM v = emptySnapshot := by
  have hsel : h2hSelected hist ch ca d maxM v = [] := by
    rcases h with h1 | h2 | h3
    · rw [h1]; exact h2hSelected_nil ch ca d maxM v
    · exact h2hSelected_of_cutoff_zero hist ch ca d maxM v h2
    · exact h3
  unfold compute_h2h_stats
  rw [hsel]
  rfl

/-- Witness for h2h_empty_contract at the empty history. -/
theorem h2h_empty_contract_witness :
    compute_h2h_stats [] "TeamA" "TeamB" 20220101 5 false = emptySnapshot :=
  h2h_empty_contract [] "TeamA" "TeamB" 20220101 5 false (Or.inl rfl)

lemma scenario_overall_eval :
    compute_h2h_stats scenarioMatches "TeamA" "TeamB" 20220101 5 false =
      { «matches» := 2, home_win_pct := some 50, away_win_pct := some 0
        draw_pct := some 50, avg_goals := some (3 / 2), btts_pct := some 50
        over_2_5_pct := some 50 } := by
  have h1 : h2hSelected scenarioMatches "TeamA" "TeamB" 20220101 5 false =
      scenarioMatches := by decide
  simp only [compute_h2h_stats, h1]
  norm_num [scenarioMatches, List.foldl, h2hStep, h2hAccInit,
    H2HSnapshot.mk.injEq]

lemma scenario_venue_eval :
    compute_h2h_stats scenarioMatches "TeamA" "TeamB" 20220101 5 true =
      { «matches» := 1, home_win_pct := some 100, away_win_pct := some 0
        draw_pct := some 0, avg_goals := some 3, btts_pct := some 100
        over_2_5_pct := some 100 } := by
  have h1 : h2hSelected scenarioMatches "TeamA" "TeamB" 20220101 5 true =
      [{ date := 20210101, home_team := "TeamA", away_team := "TeamB"
         home_goals := 2, away_goals := 1 }] := by decide
  simp only [compute_h2h_stats, h1]
  norm_num [List.foldl, h2hStep, h2hAccInit, H2HSnapshot.mk.injEq]

/-- C2 counterexample.  In the worked scenario the 2021-01-01 meeting ends
2-1: both teams score and three goals fall, so the overall snapshot has
btts_pct = 50 and over_2_5_pct = 50, refuting the claimed 0.0 values. -/
theorem h2h_scenario_counterexample :
    (compute_h2h_stats scenarioMatches "TeamA" "TeamB" 20220101 5
        false).btts_pct ≠ some 0 ∧
    (compute_h2h_stats scenarioMatches "TeamA" "TeamB" 20220101 5
        false).over_2_5_pct ≠ some 0 := by
  rw [scenario_overall_eval]
  constructor
  · intro h
    simp only [Option.some.injEq] at h
    norm_num at h
  · intro h
    simp only [Option.some.injEq] at h
    norm_num at h

/-- C2 amended.  The worked scenario as the code computes it: the overall
snapshot has matches = 2, home_win_pct = 50, draw_pct = 50, away_win_pct =
0, avg_goals = 1.5, and (correcting the claim) btts_pct = 50 and
over_2_5_pct = 50; the venue snapshot keeps only the 2021-01-01 meeting,
with matches = 1 and home_win_pct = 100. -/
theorem h2h_scenario_amended :
    compute_h2h_stats scenarioMatches "TeamA" "TeamB" 20220101 5 false =
      { «matches» := 2, home_win_pct := some 50, away_win_pct := some 0
        draw_pct := some 50, avg_goals := some (3 / 2), btts_pct := some 50
        over_2_5_pct := some 50 } ∧
    (compute_h2h_stats scenarioMatches "TeamA" "TeamB" 20220101 5
        true).«matches» = 1 ∧
    (compute_h2h_stats scenarioMatches "TeamA" "TeamB" 20220101 5
        true).home_win_pct = some 100 := by
  refine ⟨scenario_overall_eval, ?_, ?_⟩
  · rw [scenario_venue_eval]
  · rw [scenario_venue_eval]

/-- C4.  Modelled result target: for non-null final goals the derived result
is HOME when home goals exceed away goals, AWAY when away goals exceed home
goals, and DRAW when they are equal. -/
theorem result_target_trichotomy (homeGoals awayGoals : Int) :
    (homeGoals > awayGoals →
      deriveResult (some homeGoals) (some awayGoals) = some "HOME") ∧
    (awayGoals > homeGoals →
      deriveResult (some homeGoals) (some awayGoals) = some "AWAY") ∧
    (homeGoals = awayGoals →
      deriveResult (some homeGoals) (some awayGoals) = some "DRAW") := by
  refine ⟨?_, ?_, ?_⟩
  · intro h
    simp [deriveResult, h]
  · intro h
    have h1 : ¬ homeGoals > awayGoals := by omega
    simp [deriveResult, h, h1]
  · intro h
    simp [deriveResult, h]

/-- Witness for result_target_trichotomy on 2-1, 0-3 and 1-1. -/
theorem result_target_trichotomy_witness :
    deriveResult (some 2) (some 1) = some "HOME" ∧
    deriveResult (some 0) (some 3) = some "AWAY" ∧
    deriveResult (some 1) (some 1) = some "DRAW" :=
  ⟨(result_target_trichotomy 2 1).1 (by norm_num),
   (result_target_trichotomy 0 3).2.1 (by norm_num),
   (result_target_trichotomy 1 1).2.2 rfl⟩

lemma h2hDates_getD (hist : List H2HMatch) (i : Nat) (h : i < hist.length) :
    (h2hDates hist).getD i 0 = (hist.get ⟨i, h⟩).date := by
  have hlen : i < (h2hDates hist).length := by simpa [h2hDates] using h
  rw [List.getD_eq_get _ 0 hlen]
  simp [h2hDates]

/-- C1.  Causality of the H2H aggregator: with the pair history sorted by
date ascending, every match selected by compute_h2h_stats — in the overall
as well as in the venue variant — is dated strictly before the fixture
date. -/
theorem h2h_causality (hist : List H2HMatch) (ch ca : String)
    (d maxM : Nat) (venue_only : Bool)
    (hs : (h2hDates hist).Sorted (· ≤ ·)) :
    ∀ m ∈ h2hSelected hist ch ca d maxM venue_only, m.date < d := by
  intro m hm
  unfold h2hSelected at hm
  by_cases hc0 : h2hCutoff hist d = 0
  · rw [hc0] at hm
    simp at hm
  · rw [if_neg hc0] at hm
    have hdlt : ∀ i, i < h2hCutoff hist d → (h2hDates hist).getD i 0 < d :=
      bisect_left_lt (h2hDates hist) d hs
    have hclen : h2hCutoff hist d ≤ hist.length := h2hCutoff_le hist d
    cases venue_only with
    | true =>
      rw [if_pos rfl] at hm
      rw [List.mem_reverse] at hm
      rcases venueSelect_mem hist ch ca maxM (h2hCutoff hist d) [] hclen m hm
        with h1 | ⟨i, hi, hl, hg⟩
      · simp at h1
      · have := hdlt i hi
        rw [h2hDates_getD hist i hl, hg] at this
        exact this
    | false =>
      rw [if_neg (by simp)] at hm
      have hm2 : m ∈ (hist.take (h2hCutoff hist d)) :=
        pyTail_subset _ maxM m hm
      rcases mem_take_getElem hist (h2hCutoff hist d) m hm2
        with ⟨i, hi, hl, hg⟩
      have := hdlt i hi
      rw [h2hDates_getD hist i hl, hg] at this
      exact this

/-- Witness for h2h_causality: the match selected for the scenario fixture
is dated before the fixture. -/
theorem h2h_causality_witness :
    ({ date := 20210101, home_team := "TeamA", away_team := "TeamB"
       home_goals := 2, away_goals := 1 } : H2HMatch).date < 20220101 := by
  refine h2h_causality scenarioMatches "TeamA" "TeamB" 20220101 5 true
    ?_ _ ?_
  · decide
  · decide

lemma venueSelect_length_le (hist : List H2HMatch) (ch ca : String)
    (maxM : Nat) :
    ∀ (idx : Nat) (sel : List H2HMatch),
      (venueSelect hist ch ca maxM idx sel).length ≤ sel.length + idx := by
  intro idx
  induction idx with
  | zero => intro sel; simp [venueSelect]
  | succ idx ih =>
    intro sel
    simp only [venueSelect]
    by_cases hdir : (hist.getD idx default).home_team = ch ∧
        (hist.getD idx default).away_team = ca
    · rw [if_pos hdir]
      by_cases hcap : maxM ≤ sel.length + 1
      · rw [if_pos hcap]
        simp only [List.length_append, List.length_cons, List.length_nil]
        omega
      · rw [if_neg hcap]
        have := ih (sel ++ [hist.getD idx default])
        simp only [List.length_append, List.length_cons, List.length_nil] at this
        omega
    · rw [if_neg hdir]
      have := ih sel
      omega

lemma venueSelect_length_lt_max (hist : List H2HMatch) (ch ca : String)
    (maxM : Nat) :
    ∀ (idx : Nat) (sel : List H2HMatch), sel.length < maxM →
      (venueSelect hist ch ca maxM idx sel).length ≤ maxM := by
  intro idx
  induction idx with
  | zero => intro sel h; simp only [venueSelect]; omega
  | succ idx ih =>
    intro sel h
    simp only [venueSelect]
    by_cases hdir : (hist.getD idx default).home_team = ch ∧
        (hist.getD idx default).away_team = ca
    · rw [if_pos hdir]
      by_cases hcap : maxM ≤ sel.length + 1
      · rw [if_pos hcap]
        simp only [List.length_append, List.length_cons, List.length_nil]
        omega
      · rw [if_neg hcap]
        refine ih (sel ++ [hist.getD idx default]) ?_
        simp only [List.length_append, List.length_cons, List.length_nil]
        omega
    · rw [if_neg hdir]
      exact ih sel h

lemma venueSelect_length_max_zero (hist : List H2HMatch) (ch ca : String) :
    ∀ (idx : Nat) (sel : List H2HMatch),
      (venueSelect hist ch ca 0 idx sel).length ≤ sel.length + 1 := by
  intro idx
  induction idx with
  | zero => intro sel; simp only [venueSelect]; omega
  | succ idx ih =>
    intro sel
    simp only [venueSelect]
    by_cases hdir : (hist.getD idx default).home_team = ch ∧
        (hist.getD idx default).away_team = ca
    · rw [if_pos hdir, if_pos (by omega : (0 : Nat) ≤ sel.length + 1)]
      simp only [List.length_append, List.length_cons, List.length_nil]
      omega
    · rw [if_neg hdir]
      exact ih sel

/-- C8.  With the same max_matches for both variants, the venue snapshot
never counts more matches than the overall snapshot: both are capped by
max_matches, and the venue scan only ever keeps matches drawn from the same
strictly-prior eligible prefix that the overall window slices. -/
theorem h2h_venue_card_le_overall (hist : List H2HMatch) (ch ca : String)
    (d maxM : Nat) (hs : (h2hDates hist).Sorted (· ≤ ·)) :
    (compute_h2h_stats hist ch ca d maxM true).«matches» ≤
      (compute_h2h_stats hist ch ca d maxM false).«matches» := by
  rw [compute_matches_eq_length, compute_matches_eq_length]
  unfold h2hSelected
  by_cases hc0 : h2hCutoff hist d = 0
  · rw [hc0]
    simp
  · rw [if_neg hc0, if_neg hc0]
    simp only [if_pos rfl, Bool.false_eq_true, if_false, if_true]
    rw [List.length_reverse]
    have hclen : h2hCutoff hist d ≤ hist.length := h2hCutoff_le hist d
    have htake : (hist.take (h2hCutoff hist d)).length = h2hCutoff hist d := by
      rw [List.length_take]
      omega
    by_cases hm0 : maxM = 0
    · subst hm0
      unfold pyTail
      rw [if_pos rfl, htake]
      have hv := venueSelect_length_max_zero hist ch ca (h2hCutoff hist d) []
      simp only [List.length_nil] at hv
      omega
    · unfold pyTail
      rw [if_neg hm0, List.length_drop, htake]
      have hv1 := venueSelect_length_lt_max hist ch ca maxM
        (h2hCutoff hist d) [] (by simp; omega)
      have hv2 := venueSelect_length_le hist ch ca maxM (h2hCutoff hist d) []
      simp only [List.length_nil] at hv1 hv2
      omega

/-- Witness for h2h_venue_card_le_overall on the scenario history. -/
theorem h2h_venue_card_le_overall_witness :
    (compute_h2h_stats scenarioMatches "TeamA" "TeamB" 20220101 5
        true).«matches» ≤
      (compute_h2h_stats scenarioMatches "TeamA" "TeamB" 20220101 5
        false).«matches» :=
  h2h_venue_card_le_overall scenarioMatches "TeamA" "TeamB" 20220101 5
    (by decide)

lemma h2hStep_buckets (ch : String) (acc : H2HAcc) (m : H2HMatch) :
    (h2hStep ch acc m).home_wins + (h2hStep ch acc m).away_wins +
        (h2hStep ch acc m).draws =
      acc.home_wins + acc.away_wins + acc.draws + 1 := by
  simp only [h2hStep]
  split_ifs <;> simp <;> omega

lemma foldl_buckets (ch : String) :
    ∀ (l : List H2HMatch) (acc : H2HAcc),
      (l.foldl (h2hStep ch) acc).home_wins +
          (l.foldl (h2hStep ch) acc).away_wins +
          (l.foldl (h2hStep ch) acc).draws =
        acc.home_wins + acc.away_wins + acc.draws + l.length := by
  intro l
  induction l with
  | nil => intro acc; simp
  | cons m t ih =>
    intro acc
    rw [List.foldl_cons, List.length_cons]
    rw [ih (h2hStep ch acc m)]
    have := h2hStep_buckets ch acc m
    omega

/-- C10.  Whenever a snapshot counts at least one match, its three outcome
percentages are rationals in [0, 100] summing exactly to 100, because the
statistics loop puts every selected match in exactly one of the home-win,
away-win and draw buckets. -/
theorem h2h_pct_partition (hist : List H2HMatch) (ch ca : String)
    (d maxM : Nat) (v : Bool)
    (h : 0 < (compute_h2h_stats hist ch ca d maxM v).«matches») :
    ∃ hp ap dp : ℚ,
      (compute_h2h_stats hist ch ca d maxM v).home_win_pct = some hp ∧
      (compute_h2h_stats hist ch ca d maxM v).away_win_pct = some ap ∧
      (compute_h2h_stats hist ch ca d maxM v).draw_pct = some dp ∧
      0 ≤ hp ∧ hp ≤ 100 ∧ 0 ≤ ap ∧ ap ≤ 100 ∧ 0 ≤ dp ∧ dp ≤ 100 ∧
      hp + ap + dp = 100 := by
  have hlen := compute_matches_eq_length hist ch ca d maxM v
  set selected := h2hSelected hist ch ca d maxM v with hseldef
  have hne : ¬ selected.isEmpty := by
    intro habs
    rw [List.isEmpty_iff] at habs
    rw [hlen, habs] at h
    simp at h
  have hnlen : 0 < selected.length := by
    rw [hlen] at h
    exact h
  unfold compute_h2h_stats
  rw [← hseldef, if_neg hne]
  set acc := selected.foldl (h2hStep ch) h2hAccInit with haccdef
  have hsum : acc.home_wins + acc.away_wins + acc.draws = selected.length := by
    rw [haccdef, foldl_buckets ch selected h2hAccInit]
    simp [h2hAccInit]
  have hq0 : (0 : ℚ) < (selected.length : ℚ) := by
    exact_mod_cast hnlen
  have hqne : ((selected.length : ℚ)) ≠ 0 := ne_of_gt hq0
  refine ⟨(acc.home_wins : ℚ) / (selected.length : ℚ) * 100,
    (acc.away_wins : ℚ) / (selected.length : ℚ) * 100,
    (acc.draws : ℚ) / (selected.length : ℚ) * 100, rfl, rfl, rfl,
    ?_, ?_, ?_, ?_, ?_, ?_, ?_⟩
  · positivity
  · have hb : acc.home_wins ≤ selected.length := by omega
    have hb2 : (acc.home_wins : ℚ) ≤ (selected.length : ℚ) := by
      exact_mod_cast hb
    rw [div_mul_eq_mul_div, div_le_iff hq0]
    nlinarith
  · positivity
  · have hb : acc.away_wins ≤ selected.length := by omega
    have hb2 : (acc.away_wins : ℚ) ≤ (selected.length : ℚ) := by
      exact_mod_cast hb
    rw [div_mul_eq_mul_div, div_le_iff hq0]
    nlinarith
  · positivity
  · have hb : acc.draws ≤ selected.length := by omega
    have hb2 : (acc.draws : ℚ) ≤ (selected.length : ℚ) := by
      exact_mod_cast hb
    rw [div_mul_eq_mul_div, div_le_iff hq0]
    nlinarith
  · have hq : (acc.home_wins : ℚ) + (acc.away_wins : ℚ) + (acc.draws : ℚ) =
        (selected.length : ℚ) := by
      exact_mod_cast hsum
    field_simp
    linarith

/-- Witness for h2h_pct_partition on a one-match history. -/
theorem h2h_pct_partition_witness :
    0 < (compute_h2h_stats
        [{ date := 1, home_team := "A", away_team := "B", home_goals := 1
           away_goals := 0 }] "A" "B" 2 5 false).«matches» ∧
    (∃ hp ap dp : ℚ,
      (compute_h2h_stats
        [{ date := 1, home_team := "A", away_team := "B", home_goals := 1
           away_goals := 0 }] "A" "B" 2 5 false).home_win_pct = some hp ∧
      (compute_h2h_stats
        [{ date := 1, home_team := "A", away_team := "B", home_goals := 1
           away_goals := 0 }] "A" "B" 2 5 false).away_win_pct = some ap ∧
      (compute_h2h_stats
        [{ date := 1, home_team := "A", away_team := "B", home_goals := 1
           away_goals := 0 }] "A" "B" 2 5 false).draw_pct = some dp ∧
      0 ≤ hp ∧ hp ≤ 100 ∧ 0 ≤ ap ∧ ap ≤ 100 ∧ 0 ≤ dp ∧ dp ≤ 100 ∧
      hp + ap + dp = 100) :=
  ⟨by decide,
   h2h_pct_partition
     [{ date := 1, home_team := "A", away_team := "B", home_goals := 1
        away_goals := 0 }] "A" "B" 2 5 false (by decide)⟩

/-! The merge stage. -/

lemma hasDupKeys_cons (k : MergeKey) (ks : List MergeKey) :
    hasDupKeys (k :: ks) = (ks.contains k || hasDupKeys ks) := rfl

lemma joinRow_eq_find (f : FeatureRow) :
    ∀ outcomes : List OutcomeRow,
      hasDupKeys (outcomes.map OutcomeRow.key) = false →
      joinRow f outcomes = [(f, outcomes.find? (fun o => o.key == f.key))] := by
  intro outcomes
  induction outcomes with
  | nil => intro _; simp [joinRow]
  | cons o os ih =>
    intro h
    rw [List.map_cons, hasDupKeys_cons, Bool.or_eq_false_iff] at h
    obtain ⟨hco, hrest⟩ := h
    by_cases hk : (o.key == f.key) = true
    · have hnone : os.filter (fun o2 => o2.key == f.key) = [] := by
        rw [List.filter_eq_nil]
        intro o2 ho2
        intro habs
        have h1 : o2.key = f.key := by
          simpa using habs
        have h2 : o.key = f.key := by
          simpa using hk
        have hcon : (os.map OutcomeRow.key).contains o.key = true := by
          rw [List.contains_eq_any_beq, List.any_eq_true]
          refine ⟨o2.key, List.mem_map_of_mem OutcomeRow.key ho2, ?_⟩
          simp [h1, h2]
        rw [hcon] at hco
        exact Bool.noConfusion hco
      unfold joinRow
      simp only [List.filter_cons, List.find?_cons, hk, hnone, if_true]
      simp
    · have hkb : (o.key == f.key) = false := by
        simpa using hk
      unfold joinRow
      simp only [List.filter_cons, List.find?_cons, hkb, Bool.false_eq_true,
        if_false]
      exact ih hrest

lemma leftJoinRows_eq_map (outcomes : List OutcomeRow)
    (hnd : hasDupKeys (outcomes.map OutcomeRow.key) = false) :
    ∀ features : List FeatureRow,
      leftJoinRows features outcomes =
        features.map (fun f => (f, outcomes.find? (fun o => o.key == f.key))) := by
  intro features
  induction features with
  | nil => simp [leftJoinRows]
  | cons f fs ih =>
    simp only [leftJoinRows, List.map_cons]
    rw [joinRow_eq_find f outcomes hnd, ih]
    simp

/-- C3.  Merge cardinality contract of the validate="many_to_one" left
merge: duplicate composite keys on the outcome side make the merge raise a
MergeError instead of returning a frame; without duplicates the merge
succeeds and pairs every feature row, in order, with its unique matching
outcome row — none at all (outcome fields null) when no outcome row shares
its key. -/
theorem merge_many_to_one_contract (features : List FeatureRow)
    (outcomes : List OutcomeRow) :
    (hasDupKeys (outcomes.map OutcomeRow.key) = true →
      ∃ msg, mergeManyToOne features outcomes = Except.error msg) ∧
    (hasDupKeys (outcomes.map OutcomeRow.key) = false →
      mergeManyToOne features outcomes =
        Except.ok (features.map
          (fun f => (f, outcomes.find? (fun o => o.key == f.key))))) := by
  constructor
  · intro h
    refine ⟨"MergeError: merge keys are not unique in right dataset; not a many-to-one merge", ?_⟩
    unfold mergeManyToOne
    rw [if_pos h]
  · intro h
    unfold mergeManyToOne
    rw [if_neg (by rw [h]; exact Bool.false_ne_true)]
    rw [leftJoinRows_eq_map outcomes h features]

/-- Witness for merge_many_to_one_contract: a duplicated outcome key aborts,
and a clean merge pairs the matched feature row with its single outcome row
while the unmatched one keeps a null outcome. -/
theorem merge_many_to_one_contract_witness :
    (∃ msg,
      mergeManyToOne
        [{ key := { date := "2024-01-01", leagueId := 39
                    homeTeam := "arsenal", awayTeam := "chelsea" }
           payload := 0 }]
        [{ key := { date := "2024-01-01", leagueId := 39
                    homeTeam := "arsenal", awayTeam := "chelsea" }
           payload := 1 }
        ,{ key := { date := "2024-01-01", leagueId := 39
                    homeTeam := "arsenal", awayTeam := "chelsea" }
           payload := 2 }] = Except.error msg) ∧
    mergeManyToOne
        [{ key := { date := "2024-01-01", leagueId := 39
                    homeTeam := "arsenal", awayTeam := "chelsea" }
           payload := 0 }
        ,{ key := { date := "2024-01-02", leagueId := 61
                    homeTeam := "lyon", awayTeam := "nice" }
           payload := 1 }]
        [{ key := { date := "2024-01-01", leagueId := 39
                    homeTeam := "arsenal", awayTeam := "chelsea" }
           payload := 7 }] =
      Except.ok
        [({ key := { date := "2024-01-01", leagueId := 39
                     homeTeam := "arsenal", awayTeam := "chelsea" }
            payload := 0 },
           some { key := { date := "2024-01-01", leagueId := 39
                           homeTeam := "arsenal", awayTeam := "chelsea" }
                  payload := 7 })
        ,({ key := { date := "2024-01-02", leagueId := 61
                     homeTeam := "lyon", awayTeam := "nice" }
            payload := 1 }, none)] := by
  constructor
  · exact (merge_many_to_one_contract _ _).1 (by decide)
  · rw [(merge_many_to_one_contract _ _).2 (by decide)]
    rfl

/-! League resolution, the exclusion filter and the operator report. -/

lemma drop_unresolved_partition (rows : List RawRow) :
    (dropUnresolvedLeague rows).length + excludedLeagueCount rows =
      rows.length := by
  unfold dropUnresolvedLeague excludedLeagueCount
  induction rows with
  | nil => simp
  | cons r rs ih =>
    rcases hr : resolve_league_id r.Division with _ | v
    · simp only [List.filter_cons, hr, Option.isSome_none, Option.isNone_none,
        Bool.false_eq_true, if_false, if_true, List.length_cons]
      omega
    · simp only [List.filter_cons, hr, Option.isSome_some, Option.isNone_some,
        Bool.false_eq_true, if_false, if_true, List.length_cons]
      omega

/-- C5 counterexample.  Run the pipeline on a raw table whose second row has
an unresolvable league label and on an empty feature table: one row is
excluded, but every count the operator report carries is a coverage count
(value 0 here) — the report nowhere contains the excluded-row count. -/
theorem league_report_counterexample :
    excludedLeagueCount
      [ { Division := "premier league", HTHome := none, HTAway := none
          HomeYellow := none, AwayYellow := none, HomeRed := none
          AwayRed := none, HomeCorners := none, AwayCorners := none }
      , { Division := "conference north", HTHome := none, HTAway := none
          HomeYellow := none, AwayYellow := none, HomeRed := none
          AwayRed := none, HomeCorners := none, AwayCorners := none } ] = 1 ∧
    (∀ e ∈ coverageReport [], e.2 ≠ 1) ∧
    (coverageReport []).map Prod.fst =
      ["fh_goals_total", "total_cards", "total_corners"] := by
  exact ⟨by decide, by decide, rfl⟩

/-- C5 amended.  Rows whose league label does not resolve are dropped before
the pair index and the merge are built (the survivors all carry a resolved
league, and dropped plus kept rows partition the input), and the operator
report consists of the three non-null coverage counts — it does not include
the count of rows excluded for unresolved league. -/
theorem league_drop_and_report_amended (rows : List RawRow)
    (merged : List MergedRow) :
    (∀ r ∈ dropUnresolvedLeague rows, (resolve_league_id r.Division).isSome) ∧
    (dropUnresolvedLeague rows).length + excludedLeagueCount rows =
      rows.length ∧
    (coverageReport merged).map Prod.fst =
      ["fh_goals_total", "total_cards", "total_corners"] := by
  refine ⟨?_, drop_unresolved_partition rows, rfl⟩
  intro r hr
  unfold dropUnresolvedLeague at hr
  exact (List.mem_filter.mp hr).2

/-- Witness for league_drop_and_report_amended on a one-row table. -/
theorem league_drop_and_report_witness :
    (resolve_league_id
      ({ Division := "premier league", HTHome := none, HTAway := none
         HomeYellow := none, AwayYellow := none, HomeRed := none
         AwayRed := none, HomeCorners := none, AwayCorners := none }
        : RawRow).Division).isSome :=
  (league_drop_and_report_amended
    [ { Division := "premier league", HTHome := none, HTAway := none
        HomeYellow := none, AwayYellow := none, HomeRed := none
        AwayRed := none, HomeCorners := none, AwayCorners := none } ]
    []).1 _ (by decide)

/-! The name canonicalizer. -/

lemma map_id_of_mem (l : List α) (f : α → α) (h : ∀ c ∈ l, f c = c) :
    l.map f = l := by
  induction l with
  | nil => rfl
  | cons a t ih =>
    rw [List.map_cons, h a (List.mem_cons_self a t),
      ih (fun c hc => h c (List.mem_cons_of_mem a hc))]

lemma foldl_replace_no_key (l : List (Char × Char)) :
    ∀ c : Char, (∀ p ∈ l, c ≠ p.1) →
      l.foldl (fun x p => if x = p.1 then p.2 else x) c = c := by
  induction l with
  | nil => intro c _; rfl
  | cons p t ih =>
    intro c h
    rw [List.foldl_cons, if_neg (h p (List.mem_cons_self p t))]
    exact ih c (fun q hq => h q (List.mem_cons_of_mem p hq))

lemma foldl_replace_mem (l : List (Char × Char)) :
    ∀ c : Char,
      l.foldl (fun x p => if x = p.1 then p.2 else x) c ∈ c :: l.map Prod.snd := by
  induction l with
  | nil => intro c; simp
  | cons p t ih =>
    intro c
    rw [List.foldl_cons]
    by_cases hc : c = p.1
    · rw [if_pos hc]
      rcases List.mem_cons.mp (ih p.2) with h | h
      · rw [h]; simp
      · simp [List.mem_cons_of_mem, h]
    · rw [if_neg hc]
      rcases List.mem_cons.mp (ih c) with h | h
      · rw [h]; simp
      · simp [List.mem_cons_of_mem, h]

lemma lookup_mem (l : List (Char × Char)) :
    ∀ (a b : Char), l.lookup a = some b → (a, b) ∈ l := by
  induction l with
  | nil => intro a b h; simp [List.lookup] at h
  | cons p t ih =>
    intro a b h
    rw [List.lookup_cons] at h
    by_cases ha : (a == p.1) = true
    · rw [ha] at h
      simp only [Option.some.injEq] at h
      have h1 : a = p.1 := by simpa using ha
      rw [h1, ← h]
      simp
    · have hab : (a == p.1) = false := by simpa using ha
      rw [hab] at h
      exact List.mem_cons_of_mem p (ih a b h)

lemma replChar_eq_foldl (c : Char) :
    replChar c = REPLACEMENTS.foldl (fun x p => if x = p.1 then p.2 else x) c := rfl

set_option maxRecDepth 8192 in
lemma lowerPairs_stable :
    ∀ p ∈ lowerPairs, pyLower (replChar p.2) = replChar p.2 ∧
      replChar (replChar p.2) = replChar p.2 := by decide

set_option maxRecDepth 8192 in
lemma replacements_stable :
    ∀ p ∈ REPLACEMENTS, pyLower p.2 = p.2 ∧ replChar p.2 = p.2 := by decide

lemma caseAccentFold_stable (c : Char) :
    pyLower (caseAccentFold c) = caseAccentFold c ∧
      replChar (caseAccentFold c) = caseAccentFold c := by
  unfold caseAccentFold
  rcases hl : lowerPairs.lookup c with _ | v
  · have hc : pyLower c = c := by
      unfold pyLower
      rw [hl]
      rfl
    rw [hc]
    rcases List.mem_cons.mp (foldl_replace_mem REPLACEMENTS c) with h | h
    · rw [replChar_eq_foldl, h]
      exact ⟨by rw [hc], by rw [replChar_eq_foldl, h]⟩
    · rcases List.mem_map.mp h with ⟨p, hp, hpc⟩
      rw [replChar_eq_foldl, ← hpc]
      exact replacements_stable p hp
  · have hc : pyLower c = v := by
      unfold pyLower
      rw [hl]
      rfl
    rw [hc]
    exact lowerPairs_stable (c, v) (lookup_mem lowerPairs c v hl)

lemma applyReplacements_eq_map :
    ∀ (l : List (Char × Char)) (v : List Char),
      l.foldl (fun v p => v.map (fun ch => if ch = p.1 then p.2 else ch)) v =
        v.map (fun c => l.foldl (fun x p => if x = p.1 then p.2 else x) c) := by
  intro l
  induction l with
  | nil =>
    intro v
    simp
  | cons p t ih =>
    intro v
    rw [List.foldl_cons, ih, List.map_map]
    rfl

lemma applyReplacements_eq_map_replChar (v : List Char) :
    applyReplacements v = v.map replChar :=
  applyReplacements_eq_map REPLACEMENTS v

lemma splitAux_chars :
    ∀ (s acc : List Char) (w : List Char), w ∈ splitAux s acc →
      ∀ c ∈ w, c ∈ s ∨ c ∈ acc := by
  intro s
  induction s with
  | nil =>
    intro acc w hw c hc
    simp only [splitAux, List.mem_singleton] at hw
    rw [hw] at hc
    exact Or.inr (List.mem_reverse.mp hc)
  | cons c0 cs ih =>
    intro acc w hw c hc
    simp only [splitAux] at hw
    by_cases hsp : pyIsSpace c0 = true
    · rw [if_pos hsp] at hw
      rcases List.mem_cons.mp hw with h1 | h2
      · rw [h1] at hc
        exact Or.inr (List.mem_reverse.mp hc)
      · rcases ih [] w h2 c hc with h3 | h3
        · exact Or.inl (List.mem_cons_of_mem c0 h3)
        · simp at h3
    · rw [if_neg hsp] at hw
      rcases ih (c0 :: acc) w hw c hc with h3 | h3
      · exact Or.inl (List.mem_cons_of_mem c0 h3)
      · rcases List.mem_cons.mp h3 with h4 | h4
        · rw [h4]
          exact Or.inl (List.mem_cons_self c0 cs)
        · exact Or.inr h4

lemma splitAux_no_space :
    ∀ (s acc : List Char), (∀ c ∈ acc, pyIsSpace c = false) →
      ∀ w ∈ splitAux s acc, ∀ c ∈ w, pyIsSpace c = false := by
  intro s
  induction s with
  | nil =>
    intro acc hacc w hw c hc
    simp only [splitAux, List.mem_singleton] at hw
    rw [hw] at hc
    exact hacc c (List.mem_reverse.mp hc)
  | cons c0 cs ih =>
    intro acc hacc w hw c hc
    simp only [splitAux] at hw
    by_cases hsp : pyIsSpace c0 = true
    · rw [if_pos hsp] at hw
      rcases List.mem_cons.mp hw with h1 | h2
      · rw [h1] at hc
        exact hacc c (List.mem_reverse.mp hc)
      · exact ih [] (by simp) w h2 c hc
    · rw [if_neg hsp] at hw
      refine ih (c0 :: acc) ?_ w hw c hc
      intro c1 hc1
      rcases List.mem_cons.mp hc1 with h4 | h4
      · rw [h4]
        simpa using hsp
      · exact hacc c1 h4

lemma splitAux_word_append :
    ∀ (w rest acc : List Char), (∀ c ∈ w, pyIsSpace c = false) →
      splitAux (w ++ rest) acc = splitAux rest (w.reverse ++ acc) := by
  intro w
  induction w with
  | nil => intro rest acc _; simp
  | cons a w2 ih =>
    intro rest acc h
    have ha : pyIsSpace a = false := h a (List.mem_cons_self a w2)
    rw [List.cons_append]
    simp only [splitAux]
    rw [if_neg (by simp [ha])]
    rw [ih rest (a :: acc) (fun c hc => h c (List.mem_cons_of_mem a hc))]
    simp

lemma pySplit_joinSp :
    ∀ (ws : List (List Char)),
      (∀ w ∈ ws, w ≠ []) →
      (∀ w ∈ ws, ∀ c ∈ w, pyIsSpace c = false) →
      pySplit (joinSp ws) = ws := by
  intro ws
  induction ws with
  | nil => intro _ _; rfl
  | cons w ws2 ih =>
    intro hne hns
    cases ws2 with
    | nil =>
      show pySplit (joinSp [w]) = [w]
      have h1 : joinSp [w] = w := rfl
      rw [h1]
      unfold pySplit
      have h2 : splitAux w [] = splitAux [] (w.reverse ++ []) := by
        have := splitAux_word_append w [] []
          (hns w (List.mem_cons_self w []))
        simpa using this
      rw [h2]
      simp only [splitAux, List.append_nil, List.reverse_reverse]
      rw [List.filter_cons]
      have h3 : w.isEmpty = false := by
        have hw := hne w (List.mem_cons_self _ _)
        rcases w with _ | ⟨a, t⟩
        · exact absurd rfl hw
        · rfl
      rw [h3]
      simp
    | cons w2 ws3 =>
      have h1 : joinSp (w :: w2 :: ws3) = w ++ ' ' :: joinSp (w2 :: ws3) := rfl
      unfold pySplit
      rw [h1]
      rw [splitAux_word_append w (' ' :: joinSp (w2 :: ws3)) []
        (hns w (List.mem_cons_self _ _))]
      simp only [splitAux]
      rw [if_pos (by decide)]
      simp only [List.append_nil, List.reverse_reverse]
      rw [List.filter_cons]
      have h3 : w.isEmpty = false := by
        have hw := hne w (List.mem_cons_self _ _)
        rcases w with _ | ⟨a, t⟩
        · exact absurd rfl hw
        · rfl
      rw [h3]
      have ih2 := ih (fun u hu => hne u (List.mem_cons_of_mem w hu))
        (fun u hu => hns u (List.mem_cons_of_mem w hu))
      unfold pySplit at ih2
      rw [ih2]
      simp

lemma joinSp_chars :
    ∀ (ws : List (List Char)) (c : Char), c ∈ joinSp ws →
      (∃ w ∈ ws, c ∈ w) ∨ c = ' ' := by
  intro ws
  induction ws with
  | nil => intro c hc; simp [joinSp] at hc
  | cons w ws2 ih =>
    intro c hc
    cases ws2 with
    | nil =>
      exact Or.inl ⟨w, List.mem_cons_self _ _, hc⟩
    | cons w2 ws3 =>
      have h1 : joinSp (w :: w2 :: ws3) = w ++ ' ' :: joinSp (w2 :: ws3) := rfl
      rw [h1] at hc
      rcases List.mem_append.mp hc with h2 | h2
      · exact Or.inl ⟨w, List.mem_cons_self _ _, h2⟩
      · rcases List.mem_cons.mp h2 with h3 | h3
        · exact Or.inr h3
        · rcases ih c h3 with ⟨u, hu, hcu⟩ | h4
          · exact Or.inl ⟨u, List.mem_cons_of_mem w hu, hcu⟩
          · exact Or.inr h4

lemma joinSp_rev_head :
    ∀ (ws : List (List Char)) (w : List Char),
      (∀ u ∈ w :: ws, u ≠ []) →
      (∀ u ∈ w :: ws, ∀ c ∈ u, pyIsSpace c = false) →
      ∃ c t, (joinSp (w :: ws)).reverse = c :: t ∧ pyIsSpace c = false := by
  intro ws
  induction ws with
  | nil =>
    intro w hne hns
    have hw := hne w (List.mem_cons_self _ _)
    rcases hrev : w.reverse with _ | ⟨c, t⟩
    · exact absurd (by simpa using congrArg List.reverse hrev) hw
    · refine ⟨c, t, by simpa [joinSp] using hrev, ?_⟩
      have : c ∈ w.reverse := by rw [hrev]; exact List.mem_cons_self _ _
      exact hns w (List.mem_cons_self _ _) c (List.mem_reverse.mp this)
  | cons w2 ws3 ih =>
    intro w hne hns
    have h1 : joinSp (w :: w2 :: ws3) = w ++ ' ' :: joinSp (w2 :: ws3) := rfl
    rcases ih w2 (fun u hu => hne u (List.mem_cons_of_mem w hu))
      (fun u hu => hns u (List.mem_cons_of_mem w hu)) with ⟨c, t, hrev, hc⟩
    refine ⟨c, t ++ ' ' :: w.reverse, ?_, hc⟩
    rw [h1, List.reverse_append, List.reverse_cons, List.append_assoc] at *
    rw [hrev]
    simp

lemma pyStrip_joinSp :
    ∀ (ws : List (List Char)),
      (∀ u ∈ ws, u ≠ []) →
      (∀ u ∈ ws, ∀ c ∈ u, pyIsSpace c = false) →
      pyStrip (joinSp ws) = joinSp ws := by
  intro ws hne hns
  cases ws with
  | nil => rfl
  | cons w ws2 =>
    have hw := hne w (List.mem_cons_self _ _)
    have hdrop : (joinSp (w :: ws2)).dropWhile pyIsSpace = joinSp (w :: ws2) := by
      rcases w with _ | ⟨a, t⟩
      · exact absurd rfl hw
      · have ha : pyIsSpace a = false :=
          hns (a :: t) (List.mem_cons_self _ _) a (List.mem_cons_self _ _)
        cases ws2 with
        | nil =>
          show (joinSp [a :: t]).dropWhile pyIsSpace = joinSp [a :: t]
          rw [show joinSp [a :: t] = a :: t from rfl]
          exact List.dropWhile_cons_of_neg (by simp [ha])
        | cons w2 ws3 =>
          show (joinSp ((a :: t) :: w2 :: ws3)).dropWhile pyIsSpace =
            joinSp ((a :: t) :: w2 :: ws3)
          rw [show joinSp ((a :: t) :: w2 :: ws3) =
            (a :: t) ++ ' ' :: joinSp (w2 :: ws3) from rfl, List.cons_append]
          exact List.dropWhile_cons_of_neg (by simp [ha])
    rcases joinSp_rev_head ws2 w hne hns with ⟨c, t, hrev, hc⟩
    unfold pyStrip
    rw [hdrop, hrev, List.dropWhile_cons_of_neg (by simp [hc]), ← hrev,
      List.reverse_reverse]

lemma normalize_eq_parts (raw : List Char) :
    normalize_team_name raw = pyStrip (joinSp (normalizeParts raw)) := rfl

lemma value3_chars (raw : List Char) :
    ∀ c ∈ normalizeValue3 raw,
      (pyIsAlnum c || pyIsSpace c) = true ∧ pyLower c = c ∧ replChar c = c := by
  intro c hc
  unfold normalizeValue3 at hc
  rw [applyReplacements_eq_map_replChar, List.map_map, List.map_map] at hc
  rcases List.mem_map.mp hc with ⟨a, _, hac⟩
  simp only [Function.comp] at hac
  have hstab := caseAccentFold_stable a
  unfold caseAccentFold at hstab
  by_cases hcond :
      (pyIsAlnum (replChar (pyLower a)) || pyIsSpace (replChar (pyLower a))) = true
  · rw [if_pos hcond] at hac
    rw [← hac]
    exact ⟨hcond, hstab.1, hstab.2⟩
  · rw [if_neg hcond] at hac
    rw [← hac]
    exact ⟨by decide, by decide, by decide⟩

lemma normalizeParts_good (raw : List Char) :
    ∀ w ∈ normalizeParts raw,
      ((!w.isEmpty && !STOP_WORDS.contains w) = true) ∧
      ∀ c ∈ w, pyIsSpace c = false ∧ pyIsAlnum c = true ∧
        pyLower c = c ∧ replChar c = c := by
  intro w hw
  unfold normalizeParts at hw
  refine ⟨(List.mem_filter.mp hw).2, ?_⟩
  intro c hc
  have hw2 := List.mem_of_mem_filter hw
  unfold pySplit at hw2
  have hw3 := List.mem_of_mem_filter hw2
  have hns := splitAux_no_space (normalizeValue3 raw) [] (by simp) w hw3 c hc
  rcases splitAux_chars (normalizeValue3 raw) [] w hw3 c hc with h1 | h1
  · have hv3 := value3_chars raw c h1
    refine ⟨hns, ?_, hv3.2.1, hv3.2.2⟩
    rcases (show pyIsAlnum c = true ∨ pyIsSpace c = true by
        simpa using hv3.1) with h2 | h2
    · exact h2
    · rw [h2] at hns
      exact Bool.noConfusion hns
  · simp at h1

lemma normalizeParts_ne_nil (raw : List Char) :
    ∀ u ∈ normalizeParts raw, u ≠ [] := by
  intro u hu habs
  have h := (normalizeParts_good raw u hu).1
  rw [habs] at h
  simp at h

lemma normalizeParts_no_space (raw : List Char) :
    ∀ u ∈ normalizeParts raw, ∀ c ∈ u, pyIsSpace c = false :=
  fun u hu c hc => ((normalizeParts_good raw u hu).2 c hc).1

lemma normalize_eq_join (raw : List Char) :
    normalize_team_name raw = joinSp (normalizeParts raw) := by
  rw [normalize_eq_parts]
  exact pyStrip_joinSp (normalizeParts raw) (normalizeParts_ne_nil raw)
    (normalizeParts_no_space raw)

/-- C6.  The name canonicalizer is idempotent: normalising an already
normalised name changes nothing, because the output is a join of nonempty,
whitespace-free, alphanumeric, lowercase, accent-free words none of which is
a stop word. -/
theorem normalize_idempotent (raw : List Char) :
    normalize_team_name (normalize_team_name raw) = normalize_team_name raw := by
  rw [normalize_eq_join raw]
  have hgood := normalizeParts_good raw
  have hne := normalizeParts_ne_nil raw
  have hns := normalizeParts_no_space raw
  have hchar : ∀ c ∈ joinSp (normalizeParts raw),
      pyLower c = c ∧ replChar c = c ∧ (pyIsAlnum c || pyIsSpace c) = true := by
    intro c hc
    rcases joinSp_chars (normalizeParts raw) c hc with ⟨w, hw, hcw⟩ | rfl
    · have h := (hgood w hw).2 c hcw
      exact ⟨h.2.2.1, h.2.2.2, by rw [h.2.1]; simp⟩
    · exact ⟨by decide, by decide, by decide⟩
  have h1 : pyStrip (joinSp (normalizeParts raw)) = joinSp (normalizeParts raw) :=
    pyStrip_joinSp (normalizeParts raw) hne hns
  simp only [normalize_team_name]
  rw [h1]
  rw [map_id_of_mem _ pyLower (fun c hc => (hchar c hc).1)]
  rw [applyReplacements_eq_map_replChar,
    map_id_of_mem _ replChar (fun c hc => (hchar c hc).2.1)]
  rw [map_id_of_mem _ _
    (fun c hc => by rw [if_pos ((hchar c hc).2.2)])]
  rw [pySplit_joinSp (normalizeParts raw) hne hns]
  rw [List.filter_eq_self.mpr (fun w hw => (hgood w hw).1)]
  exact h1

set_option maxRecDepth 8192 in
lemma lowerPairs_no_space :
    ∀ p ∈ lowerPairs, pyIsSpace p.1 = false ∧
      pyIsSpace (replChar p.2) = false := by decide

set_option maxRecDepth 8192 in
lemma replacements_no_space :
    ∀ p ∈ REPLACEMENTS, pyIsSpace p.1 = false ∧ pyIsSpace p.2 = false := by
  decide

lemma space_pres (c : Char) : pyIsSpace (caseAccentFold c) = pyIsSpace c := by
  unfold caseAccentFold
  rcases hl : lowerPairs.lookup c with _ | v
  · have hc : pyLower c = c := by
      unfold pyLower
      rw [hl]
      rfl
    rw [hc]
    by_cases hk : ∀ p ∈ REPLACEMENTS, c ≠ p.1
    · rw [replChar_eq_foldl, foldl_replace_no_key REPLACEMENTS c hk]
    · push_neg at hk
      rcases hk with ⟨p, hp, hc2⟩
      rcases List.mem_cons.mp (foldl_replace_mem REPLACEMENTS c) with h | h
      · rw [replChar_eq_foldl, h]
      · rcases List.mem_map.mp h with ⟨q, hq, hqc⟩
        rw [replChar_eq_foldl, ← hqc, (replacements_no_space q hq).2]
        rw [hc2, (replacements_no_space p hp).1]
  · have hc : pyLower c = v := by
      unfold pyLower
      rw [hl]
      rfl
    rw [hc]
    have d := lowerPairs_no_space (c, v) (lookup_mem lowerPairs c v hl)
    rw [d.2, d.1]

lemma dropWhile_map_of_pres (f : Char → Char)
    (hf : ∀ c, pyIsSpace (f c) = pyIsSpace c) :
    ∀ s : List Char,
      (s.dropWhile pyIsSpace).map f = (s.map f).dropWhile pyIsSpace := by
  intro s
  induction s with
  | nil => rfl
  | cons a t ih =>
    by_cases ha : pyIsSpace a = true
    · rw [List.dropWhile_cons_of_pos (by simp [ha]), List.map_cons,
        List.dropWhile_cons_of_pos (by simp [hf a, ha]), ih]
    · have ha2 : pyIsSpace a = false := by simpa using ha
      rw [List.dropWhile_cons_of_neg (by simp [ha2]), List.map_cons,
        List.dropWhile_cons_of_neg (by simp [hf a, ha2])]

lemma pyStrip_map_comm (f : Char → Char)
    (hf : ∀ c, pyIsSpace (f c) = pyIsSpace c) (s : List Char) :
    (pyStrip s).map f = pyStrip (s.map f) := by
  unfold pyStrip
  rw [← dropWhile_map_of_pres f hf s, ← List.map_reverse,
    ← dropWhile_map_of_pres f hf, ← List.map_reverse]

/-- C7.  Case and accent invariance: two raw names whose characters agree
pointwise after case folding and accent folding normalise to the same
string; in particular "Sao Paulo" and "São Paulo" normalise identically. -/
theorem normalize_case_accent_invariant (s t : List Char)
    (h : s.map caseAccentFold = t.map caseAccentFold) :
    normalize_team_name s = normalize_team_name t := by
  have key : applyReplacements ((pyStrip s).map pyLower) =
      applyReplacements ((pyStrip t).map pyLower) := by
    have hcomp : replChar ∘ pyLower = caseAccentFold := by
      funext c
      unfold caseAccentFold Function.comp
      rfl
    rw [applyReplacements_eq_map_replChar, applyReplacements_eq_map_replChar,
      List.map_map, List.map_map, hcomp]
    rw [pyStrip_map_comm caseAccentFold space_pres s,
      pyStrip_map_comm caseAccentFold space_pres t, h]
  simp only [normalize_team_name]
  rw [key]

set_option maxRecDepth 8192 in
/-- Witness for normalize_case_accent_invariant: the spec's own example pair
"São Paulo" and "Sao Paulo". -/
theorem normalize_case_accent_invariant_witness :
    normalize_team_name ("São Paulo".toList) =
      normalize_team_name ("Sao Paulo".toList) :=
  normalize_case_accent_invariant _ _ (by decide)
